import Mathlib

/-!
# Verification of the media-localization pipeline

Shallow embedding of the core of the `obsidian-images-store` plugin:
the filename resolver (`chooseFileName`), the per-match processor
(`processImageTag`), the hash registry (`linkHashes`), and the settings
merge (`loadSettings`).  Byte buffers are modelled as `List Nat`,
the vault filesystem and the hash registry as association lists keyed
by strings, and the asynchronous effects of the per-match processor as
an explicit environment of per-attempt outcomes together with an event
trace.
-/

set_option autoImplicit false

namespace ImagesStore

/-- A byte buffer (`ArrayBuffer` in the source). -/
abbrev Bytes := List Nat

/-- The vault filesystem visible to one `chooseFileName` call:
a mapping from path to file content. -/
abbrev FS := List (String × Bytes)

/-- First match of a key in an association list. -/
def assocFind {α : Type} : List (String × α) → String → Option α
  | [], _ => none
  | (k, v) :: rest, key => if k = key then some v else assocFind rest key

/-- `adapter.exists`: does a file exist at `p`? -/
def fsExists (fs : FS) (p : String) : Bool :=
  (assocFind fs p).isSome

/-- Writing a file (`createBinary` on success). -/
def fsWrite (fs : FS) (p : String) (b : Bytes) : FS :=
  (p, b) :: fs

/-- Modelled from the spec: the Hash Registry's content digest of a byte
buffer (`linksHash.ts` is not under `src/`).  The digest is modelled as
collision-free, i.e. the bytes themselves. -/
def digest (b : Bytes) : Bytes := b

/-- Modelled from the spec: the Hash Registry state, keyed by source link
(`linksHash.ts` is not under `src/`). -/
abbrev Registry := List (String × Bytes)

/-- Modelled from the spec: `ensureHashGenerated(link, bytes)` — if no hash
is recorded for `link`, compute and store `digest(bytes)`; idempotent,
first-write-wins (`linksHash.ts` is not under `src/`). -/
def ensureHashGenerated (reg : Registry) (link : String) (bytes : Bytes) : Registry :=
  if (assocFind reg link).isSome then reg else (link, digest bytes) :: reg

/-- Modelled from the spec: `isSame(link, candidateBytes)` — whether
`digest(candidateBytes)` equals the stored hash for `link`; `false` when no
hash is recorded (`linksHash.ts` is not under `src/`). -/
def isSame (reg : Registry) (link : String) (candidate : Bytes) : Bool :=
  match assocFind reg link with
  | some h => h = digest candidate
  | none => false

/-- `FILENAME_TEMPLATE` from `config.ts`. -/
def FILENAME_TEMPLATE : String := "media_asset"

/-- `MAX_FILENAME_INDEX` from `config.ts`. -/
def MAX_FILENAME_INDEX : Nat := 1000

/-- `FILENAME_ATTEMPTS` from `config.ts`. -/
def FILENAME_ATTEMPTS : Nat := 5

/-- Modelled from the spec: `fileExtByContent` (in `utils.ts`, not under
`src/`) sniffs the extension from the leading bytes against known binary
signatures, falling back to a generic extension. -/
def fileExtByContent (b : Bytes) : String :=
  if b.take 4 = [137, 80, 78, 71] then "png"
  else if b.take 3 = [255, 216, 255] then "jpg"
  else if b.take 3 = [71, 73, 70] then "gif"
  else "bin"

/-- Modelled from the spec: the `filenamify` library sanitizes a base name
into a filesystem-safe token by replacing characters illegal in file
names. -/
def filenamifyChar (c : Char) : Char :=
  if c ∈ ['<', '>', ':', '"', '/', '\\', '|', '?', '*'] then '!' else c

/-- Modelled from the spec: sanitize `baseName` into a filesystem-safe
token (the `filenamify` dependency). -/
def filenamify (s : String) : String :=
  String.mk (s.data.map filenamifyChar)

/-- Does `s` end with `t`?  (`String.endsWith`, stated over the character
lists so that it evaluates by kernel reduction.) -/
def strEndsWith (s t : String) : Bool :=
  s.data.reverse.take t.data.length = t.data.reverse

/-- Drop the last `n` characters of `s` (`baseName.slice(0, -n)` in the
source). -/
def strDropRight (s : String) (n : Nat) : String :=
  String.mk (s.data.take (s.data.length - n))

/-- Modelled from the spec: `path.basename(new URL(link).pathname)` — the
last path segment of the URL, used when the anchor is empty. -/
def urlBasename (link : String) : String :=
  let afterScheme :=
    match link.splitOn "://" with
    | _ :: rest :: _ => rest
    | _ => link
  let noQuery := (afterScheme.splitOn "?").headD afterScheme
  let noFrag := (noQuery.splitOn "#").headD noQuery
  match noFrag.splitOn "/" with
  | [] => ""
  | [_host] => ""
  | _host :: segs => segs.getLastD ""

/-- `path.join(dir, name)` for a plain directory and file name. -/
def pathJoin (dir name : String) : String :=
  dir ++ "/" ++ name

/-- The candidate path for index `i`: `dir/base.ext` at index 0 and
`dir/base-i.ext` otherwise (`chooseFileName`'s `suggestedName`). -/
def suggestedName (dir base ext : String) (i : Nat) : String :=
  if i = 0 then pathJoin dir (base ++ "." ++ ext)
  else pathJoin dir (base ++ "-" ++ Nat.repr i ++ "." ++ ext)

/-- The base-name preprocessing of `chooseFileName`: fall back to the URL
basename then the template, strip a duplicate extension suffix, then
sanitize. -/
def resolvedBase (baseName link ext : String) : String :=
  let base1 := if baseName = "" then urlBasename link else baseName
  let base2 := if base1 = "" then FILENAME_TEMPLATE else base1
  let base3 :=
    if strEndsWith base2 ("." ++ ext) then
      strDropRight base2 (ext.data.length + 1)
    else base2
  filenamify base3

/-- The collision-search loop of `chooseFileName`
(`while (!fileName && index < MAX_FILENAME_INDEX)`), threading the hash
registry: at an existing candidate it ensures the link's hash, reads the
file and compares via `isSame`; at a nonexistent candidate it accepts with
`needWrite = true`.  `fuel` is the number of remaining indices. -/
def chooseLoop (fs : FS) (dir base ext link : String) (bytes : Bytes) :
    Registry → Nat → Nat → Registry × Option (String × Bool)
  | reg, _, 0 => (reg, none)
  | reg, index, fuel + 1 =>
    let nm := suggestedName dir base ext index
    match assocFind fs nm with
    | some fileData =>
      let reg1 := ensureHashGenerated reg link bytes
      if isSame reg1 link fileData then (reg1, some (nm, false))
      else chooseLoop fs dir base ext link bytes reg1 (index + 1) fuel
    | none => (reg, some (nm, true))

/-- Acceptance of candidate index `i`, as the specification states it:
a nonexistent candidate is accepted with `needsWrite = true`; an existing
candidate is accepted with `needsWrite = false` exactly when the existing
file's bytes compare equal via the Hash Registry's `isSame` (with the
link's hash already ensured in `reg`); otherwise the candidate is
rejected. -/
def acceptsAt (fs : FS) (reg : Registry) (dir base ext link : String) (i : Nat) :
    Option Bool :=
  match assocFind fs (suggestedName dir base ext i) with
  | none => some true
  | some d => if isSame reg link d then some false else none

/-- The bounded candidate search as the specification states it: iterate
indices from `index` for `fuel` steps, returning the first accepted
candidate with its `needsWrite` flag. -/
def searchFrom (fs : FS) (reg : Registry) (dir base ext link : String) :
    Nat → Nat → Option (String × Bool)
  | _, 0 => none
  | index, fuel + 1 =>
    match acceptsAt fs reg dir base ext link index with
    | some w => some (suggestedName dir base ext index, w)
    | none => searchFrom fs reg dir base ext link (index + 1) fuel

/-- The resolver algorithm in the specification's words: after ensuring the
link's hash is recorded, search candidate indices `0 ≤ i <
MAX_FILENAME_INDEX` for the first nonexistent candidate (`needsWrite =
true`) or existing candidate whose content matches via `isSame`
(`needsWrite = false`). -/
def resolveSpec (fs : FS) (reg : Registry) (dir baseName link : String)
    (bytes : Bytes) : Option (String × Bool) :=
  let ext := fileExtByContent bytes
  searchFrom fs (ensureHashGenerated reg link bytes) dir
    (resolvedBase baseName link ext) ext link 0 MAX_FILENAME_INDEX

/-- `chooseFileName(adapter, dir, baseName, link, contentData)`: sniff the
extension, preprocess the base name, run the collision search, and either
throw `"Failed to generate file name for media file."` or ensure the
link's hash and return `(fileName, needWrite)`.  Returns the updated
registry together with the result. -/
def chooseFileName (fs : FS) (reg : Registry) (dir baseName link : String)
    (contentData : Bytes) : Registry × Except String (String × Bool) :=
  let fileExt := fileExtByContent contentData
  let base := resolvedBase baseName link fileExt
  match chooseLoop fs dir base fileExt link contentData reg 0 MAX_FILENAME_INDEX with
  | (reg1, some (nm, w)) =>
    (ensureHashGenerated reg1 link contentData, Except.ok (nm, w))
  | (reg1, none) =>
    (reg1, Except.error "Failed to generate file name for media file.")

/-! ## The per-match processor `processImageTag`

The processor runs inside `replaceAsync` per matched image tag.  Its
asynchronous collaborators — `downloadImage`, `chooseFileName` as seen
through a filesystem that other in-flight rewrites may mutate between
attempts, and `vault.createBinary` — are modelled as an explicit
environment of per-attempt outcomes, and the processor additionally
produces a trace of the effectful calls it makes. -/

/-- The error message Obsidian's `createBinary` raises on a conflicting
write, which `processImageTag` tests for verbatim. -/
def fileExistsMsg : String := "File already exists."

/-- An effectful call made by `processImageTag`: a fetch of the remote
link, an invocation of `chooseFileName` (recording the byte buffer passed
to it), or an invocation of `createBinary`. -/
inductive Ev where
  | fetchEv (link : String)
  | resolveEv (attempt : Nat) (bytes : Bytes)
  | writeEv (attempt : Nat) (path : String) (bytes : Bytes)
deriving DecidableEq

/-- The outcomes of `processImageTag`'s collaborators: the single
`downloadImage` call, and per-attempt outcomes of `chooseFileName` and
`createBinary` (per-attempt because a concurrent rewrite may change the
vault between attempts). -/
structure Env where
  fetch : Except String Bytes
  resolve : Nat → Bytes → Except String (String × Bool)
  write : Nat → String → Bytes → Except String Unit

/-- The rewritten reference emitted on success. -/
def imageTag (anchor fileName : String) : String :=
  "![" ++ anchor ++ "](" ++ fileName ++ ")"

/-- The retry loop of `processImageTag`
(`while (attempt < FILENAME_ATTEMPTS)`): each attempt resolves a file
name with the already-fetched bytes and, when `needWrite`, writes the
file; an error whose message is `fileExistsMsg` increments the attempt
counter, any other error escapes to the outer catch (which returns the
matched text); exhausting the attempts returns the matched text. -/
def attemptLoop (env : Env) (matchText anchor : String) (bytes : Bytes) :
    Nat → Nat → String × List Ev
  | _, 0 => (matchText, [])
  | attempt, fuel + 1 =>
    match env.resolve attempt bytes with
    | Except.error msg =>
      if msg = fileExistsMsg then
        let r := attemptLoop env matchText anchor bytes (attempt + 1) fuel
        (r.1, Ev.resolveEv attempt bytes :: r.2)
      else (matchText, [Ev.resolveEv attempt bytes])
    | Except.ok (fileName, needWrite) =>
      if needWrite then
        match env.write attempt fileName bytes with
        | Except.error msg =>
          if msg = fileExistsMsg then
            let r := attemptLoop env matchText anchor bytes (attempt + 1) fuel
            (r.1, Ev.resolveEv attempt bytes :: Ev.writeEv attempt fileName bytes :: r.2)
          else
            (matchText, [Ev.resolveEv attempt bytes, Ev.writeEv attempt fileName bytes])
        | Except.ok _ =>
          (imageTag anchor fileName,
            [Ev.resolveEv attempt bytes, Ev.writeEv attempt fileName bytes])
      else (imageTag anchor fileName, [Ev.resolveEv attempt bytes])

/-- `processImageTag(match, anchor, link)`: a non-URL link is returned
verbatim; otherwise the bytes are fetched once and the retry loop runs
with them; any failure (fetch error, non-conflict error, or attempt
exhaustion) yields the matched text unchanged.  `isUrlF` stands for
`isUrl` from `utils.ts` (not under `src/`), modelled from the spec as an
abstract well-formed-external-URL predicate. -/
def processImageTag (isUrlF : String → Bool) (env : Env)
    (matchText anchor link : String) : String × List Ev :=
  if isUrlF link then
    match env.fetch with
    | Except.error _ => (matchText, [Ev.fetchEv link])
    | Except.ok bytes =>
      let r := attemptLoop env matchText anchor bytes 0 FILENAME_ATTEMPTS
      (r.1, Ev.fetchEv link :: r.2)
  else (matchText, [])

/-- Attempt `n` fails (its resolution errors, or it resolves to a fresh
name and the write errors). -/
def attemptFails (env : Env) (bytes : Bytes) (n : Nat) : Prop :=
  (∃ msg, env.resolve n bytes = Except.error msg) ∨
    (∃ fn msg, env.resolve n bytes = Except.ok (fn, true) ∧
      env.write n fn bytes = Except.error msg)

/-- Attempt `n` fails with the "already exists" class of conflict. -/
def attemptAlreadyExists (env : Env) (bytes : Bytes) (n : Nat) : Prop :=
  env.resolve n bytes = Except.error fileExistsMsg ∨
    (∃ fn, env.resolve n bytes = Except.ok (fn, true) ∧
      env.write n fn bytes = Except.error fileExistsMsg)

/-- Attempt `n` fails with message `msg` (from its resolution or from the
write of a fresh name). -/
def attemptErrorsWith (env : Env) (bytes : Bytes) (n : Nat) (msg : String) : Prop :=
  env.resolve n bytes = Except.error msg ∨
    (∃ fn, env.resolve n bytes = Except.ok (fn, true) ∧
      env.write n fn bytes = Except.error msg)

/-- Is the event a fetch? -/
def isFetchEv : Ev → Bool
  | Ev.fetchEv _ => true
  | _ => false

/-- Is the event a resolution attempt? -/
def isResolveEv : Ev → Bool
  | Ev.resolveEv _ _ => true
  | _ => false

/-- Number of fetches in a trace. -/
def fetchCount (tr : List Ev) : Nat :=
  (tr.filter isFetchEv).length

/-- Number of resolution attempts in a trace. -/
def resolveCount (tr : List Ev) : Nat :=
  (tr.filter isResolveEv).length

/-! ## Settings

`loadSettings` in `main.ts` merges the stored data over `DEFAULT_CONF`
with `Object.assign({}, DEFAULT_CONF, await this.loadData())`.  A settings
object is modelled as an association list whose lookup takes the first
match, so an overlay is modelled by prepending. -/

/-- A dynamically-typed settings value. -/
inductive SettingVal where
  | b (v : Bool)
  | n (v : Nat)
  | s (v : String)
deriving DecidableEq

/-- An opaque key/value settings object. -/
abbrev SettingsData := List (String × SettingVal)

/-- `Object.assign({}, base, overlay)`: every key of either object is
present in the result, and keys of `overlay` take precedence. -/
def objAssign (base overlay : SettingsData) : SettingsData :=
  overlay ++ base

/-- `DEFAULT_CONF` from `config.ts`. -/
def DEFAULT_CONF : SettingsData :=
  [ ("realTimeUpdate", SettingVal.b false),
    ("realTimeUpdateInterval", SettingVal.n 1000),
    ("realTimeAttemptsToProcess", SettingVal.n 3),
    ("cleanContent", SettingVal.b true),
    ("showNotifications", SettingVal.b false),
    ("include", SettingVal.s ".*\\.md"),
    ("assetDir", SettingVal.s "_assets"),
    ("createFileDir", SettingVal.b true),
    ("namePattern", SettingVal.s "\x7b\x7bFileName\x7d\x7d_\x7b\x7bAnchor\x7d\x7d\x7b\x7bDATE:_YYYY-MM-DD\x7d\x7d") ]

/-- `loadSettings`: `Object.assign({}, DEFAULT_CONF, stored)` (a stored
value of `null` is the empty list). -/
def loadSettings (stored : SettingsData) : SettingsData :=
  objAssign DEFAULT_CONF stored

/-! ## Concrete values used by the witnesses -/

/-- Decidable equality on `Except`, used to evaluate resolver results on
concrete inputs. -/
instance exceptDecEq {ε α : Type} [DecidableEq ε] [DecidableEq α] :
    DecidableEq (Except ε α)
  | Except.ok a, Except.ok b =>
    if h : a = b then Decidable.isTrue (congrArg Except.ok h)
    else Decidable.isFalse (fun hc => h (Except.ok.inj hc))
  | Except.ok _, Except.error _ =>
    Decidable.isFalse (fun hc => Except.noConfusion hc)
  | Except.error _, Except.ok _ =>
    Decidable.isFalse (fun hc => Except.noConfusion hc)
  | Except.error e, Except.error f =>
    if h : e = f then Decidable.isTrue (congrArg Except.error h)
    else Decidable.isFalse (fun hc => h (Except.error.inj hc))

/-- A small png-signature byte buffer. -/
def pngA : Bytes := [137, 80, 78, 71, 1]

/-- A different png-signature byte buffer. -/
def pngB : Bytes := [137, 80, 78, 71, 2]

/-- A concrete link. -/
def linkY : String := "http://x/y.png"

/-- A stored settings object with one documented key and one key unknown
to the configuration schema. -/
def storedSample : SettingsData :=
  [("realTimeUpdate", SettingVal.b true), ("bogus", SettingVal.n 7)]

/-- An environment whose fetch fails. -/
def envFetchFail : Env :=
  ⟨Except.error "network error", fun _ _ => Except.error "e", fun _ _ _ => Except.ok ()⟩

/-- An environment whose first resolution reuses an existing file. -/
def envResolveOk : Env :=
  ⟨Except.ok pngA, fun _ _ => Except.ok ("assets/diagram.png", false),
    fun _ _ _ => Except.ok ()⟩

/-- An environment in which every attempt hits the "already exists"
conflict. -/
def envAlready : Env :=
  ⟨Except.ok pngA, fun _ _ => Except.error fileExistsMsg,
    fun _ _ _ => Except.error fileExistsMsg⟩

/-- An environment whose attempt 0 hits the "already exists" conflict and
whose attempt 1 fails with a different error. -/
def envOther : Env :=
  ⟨Except.ok pngA,
    fun n _ => if n = 0 then Except.error fileExistsMsg else Except.error "boom",
    fun _ _ _ => Except.ok ()⟩

/-! ## Registry lemmas -/

theorem ensure_of_isSome {reg : Registry} {l : String} (b : Bytes)
    (h : (assocFind reg l).isSome = true) :
    ensureHashGenerated reg l b = reg := by
  simp [ensureHashGenerated, h]

theorem assocFind_ensure_isSome (reg : Registry) (l : String) (b : Bytes) :
    (assocFind (ensureHashGenerated reg l b) l).isSome = true := by
  unfold ensureHashGenerated
  cases h : assocFind reg l with
  | some v => simp [h]
  | none => simp [h, assocFind]

theorem ensure_idem (reg : Registry) (l : String) (b b' : Bytes) :
    ensureHashGenerated (ensureHashGenerated reg l b) l b' =
      ensureHashGenerated reg l b :=
  ensure_of_isSome b' (assocFind_ensure_isSome reg l b)

theorem assocFind_ensure_of_none {reg : Registry} {l : String} (b : Bytes)
    (h : assocFind reg l = none) :
    assocFind (ensureHashGenerated reg l b) l = some (digest b) := by
  simp [ensureHashGenerated, h, assocFind]

theorem assocFind_ensure_of_some {reg : Registry} {l : String} {v : Bytes}
    (b : Bytes) (h : assocFind reg l = some v) :
    assocFind (ensureHashGenerated reg l b) l = some v := by
  simp [ensureHashGenerated, h]

/-! ## Characterization of the collision-search loop -/

theorem chooseLoop_snd (fs : FS) (dir base ext link : String) (bytes : Bytes) :
    ∀ fuel index reg,
      (chooseLoop fs dir base ext link bytes reg index fuel).2 =
        searchFrom fs (ensureHashGenerated reg link bytes) dir base ext link
          index fuel := by
  intro fuel
  induction fuel with
  | zero => intro index reg; rfl
  | succ n ih =>
    intro index reg
    rw [chooseLoop, searchFrom, acceptsAt]
    cases h : assocFind fs (suggestedName dir base ext index) with
    | none => simp
    | some d =>
      simp only
      by_cases hs : isSame (ensureHashGenerated reg link bytes) link d
      · rw [if_pos hs, if_pos hs]
      · rw [if_neg hs, if_neg hs, ih, ensure_idem]

theorem chooseLoop_fst (fs : FS) (dir base ext link : String) (bytes : Bytes) :
    ∀ fuel index reg,
      (chooseLoop fs dir base ext link bytes reg index fuel).1 = reg ∨
        (chooseLoop fs dir base ext link bytes reg index fuel).1 =
          ensureHashGenerated reg link bytes := by
  intro fuel
  induction fuel with
  | zero => intro index reg; exact Or.inl rfl
  | succ n ih =>
    intro index reg
    rw [chooseLoop]
    cases h : assocFind fs (suggestedName dir base ext index) with
    | none => exact Or.inl rfl
    | some d =>
      simp only
      by_cases hs : isSame (ensureHashGenerated reg link bytes) link d
      · rw [if_pos hs]
        exact Or.inr rfl
      · rw [if_neg hs]
        rcases ih (index + 1) (ensureHashGenerated reg link bytes) with h1 | h1
        · exact Or.inr h1
        · rw [ensure_idem] at h1
          exact Or.inr h1

/-- On success, `chooseFileName`'s resulting registry is exactly the
initial registry with the link's hash ensured. -/
theorem chooseFileName_fst_of_ok (fs : FS) (reg : Registry)
    (dir baseName link : String) (bytes : Bytes) (r : String × Bool)
    (h : (chooseFileName fs reg dir baseName link bytes).2 = Except.ok r) :
    (chooseFileName fs reg dir baseName link bytes).1 =
      ensureHashGenerated reg link bytes := by
  have hfst := chooseLoop_fst fs dir
    (resolvedBase baseName link (fileExtByContent bytes))
    (fileExtByContent bytes) link bytes MAX_FILENAME_INDEX 0 reg
  simp only [chooseFileName] at h ⊢
  rcases hL : chooseLoop fs dir (resolvedBase baseName link (fileExtByContent bytes))
      (fileExtByContent bytes) link bytes reg 0 MAX_FILENAME_INDEX with ⟨reg1, res⟩
  rw [hL] at hfst h
  cases res with
  | none => simp at h
  | some p =>
    cases p with
    | mk nm w =>
      show ensureHashGenerated reg1 link bytes = ensureHashGenerated reg link bytes
      simp only [Prod.fst] at hfst
      rcases hfst with h1 | h1
      · rw [h1]
      · rw [h1]
        exact ensure_idem reg link bytes bytes

/-- The full result of `chooseFileName` equals the specification-worded
resolver, with the search-exhaustion failure mapped to the
`NameGenerationError` message. -/
theorem chooseFileName_snd_eq (fs : FS) (reg : Registry)
    (dir baseName link : String) (bytes : Bytes) :
    (chooseFileName fs reg dir baseName link bytes).2 =
      match resolveSpec fs reg dir baseName link bytes with
      | some r => Except.ok r
      | none => Except.error "Failed to generate file name for media file." := by
  have hsnd := chooseLoop_snd fs dir
    (resolvedBase baseName link (fileExtByContent bytes))
    (fileExtByContent bytes) link bytes MAX_FILENAME_INDEX 0 reg
  simp only [chooseFileName, resolveSpec]
  rcases hL : chooseLoop fs dir (resolvedBase baseName link (fileExtByContent bytes))
      (fileExtByContent bytes) link bytes reg 0 MAX_FILENAME_INDEX with ⟨reg1, res⟩
  rw [hL] at hsnd
  simp only at hsnd
  rw [← hsnd]
  cases res with
  | none => simp
  | some p => cases p with | mk nm w => simp

/-! ## Characterization of the bounded search -/

theorem searchFrom_eq_none_iff (fs : FS) (reg : Registry)
    (dir base ext link : String) :
    ∀ fuel index,
      searchFrom fs reg dir base ext link index fuel = none ↔
        ∀ i, index ≤ i → i < index + fuel →
          acceptsAt fs reg dir base ext link i = none := by
  intro fuel
  induction fuel with
  | zero =>
    intro index
    constructor
    · intro _ i h1 h2
      omega
    · intro _
      rfl
  | succ n ih =>
    intro index
    rw [searchFrom]
    cases h : acceptsAt fs reg dir base ext link index with
    | some w =>
      simp only
      constructor
      · intro hcon
        exact absurd hcon (by simp)
      · intro hall
        have := hall index (Nat.le_refl _) (by omega)
        rw [h] at this
        exact absurd this (by simp)
    | none =>
      simp only
      rw [ih (index + 1)]
      constructor
      · intro hall i h1 h2
        rcases Nat.eq_or_lt_of_le h1 with he | hlt
        · rw [← he]; exact h
        · exact hall i hlt (by omega)
      · intro hall i h1 h2
        exact hall i (by omega) (by omega)

theorem searchFrom_some_elim (fs : FS) (reg : Registry)
    (dir base ext link : String) :
    ∀ fuel index nm w,
      searchFrom fs reg dir base ext link index fuel = some (nm, w) →
        ∃ i, index ≤ i ∧ i < index + fuel ∧
          nm = suggestedName dir base ext i ∧
          acceptsAt fs reg dir base ext link i = some w ∧
          ∀ j, index ≤ j → j < i →
            acceptsAt fs reg dir base ext link j = none := by
  intro fuel
  induction fuel with
  | zero =>
    intro index nm w hcon
    exact absurd hcon (by rw [searchFrom]; simp)
  | succ n ih =>
    intro index nm w hsearch
    rw [searchFrom] at hsearch
    cases h : acceptsAt fs reg dir base ext link index with
    | some w0 =>
      rw [h] at hsearch
      simp only [Option.some_inj, Prod.mk.injEq] at hsearch
      obtain ⟨hnm, hw⟩ := hsearch
      refine ⟨index, Nat.le_refl _, by omega, hnm.symm, ?_, ?_⟩
      · rw [h, hw]
      · intro j h1 h2
        omega
    | none =>
      rw [h] at hsearch
      simp only at hsearch
      rcases ih (index + 1) nm w hsearch with ⟨i, hi1, hi2, hi3, hi4, hi5⟩
      refine ⟨i, by omega, by omega, hi3, hi4, ?_⟩
      intro j h1 h2
      rcases Nat.eq_or_lt_of_le h1 with he | hlt
      · rw [← he]; exact h
      · exact hi5 j hlt h2

theorem searchFrom_some_intro (fs : FS) (reg : Registry)
    (dir base ext link : String) :
    ∀ fuel index i w, index ≤ i → i < index + fuel →
      acceptsAt fs reg dir base ext link i = some w →
      (∀ j, index ≤ j → j < i →
        acceptsAt fs reg dir base ext link j = none) →
      searchFrom fs reg dir base ext link index fuel =
        some (suggestedName dir base ext i, w) := by
  intro fuel
  induction fuel with
  | zero =>
    intro index i w h1 h2
    omega
  | succ n ih =>
    intro index i w h1 h2 hacc hrej
    rw [searchFrom]
    rcases Nat.eq_or_lt_of_le h1 with he | hlt
    · rw [← he] at hacc ⊢
      rw [hacc]
    · have hidx : acceptsAt fs reg dir base ext link index = none :=
        hrej index (Nat.le_refl _) hlt
      rw [hidx]
      simp only
      exact ih (index + 1) i w (by omega) (by omega) hacc
        (fun j hj1 hj2 => hrej j (by omega) hj2)

/-! ## Acceptance lemmas -/

theorem acceptsAt_eq_some_true_iff (fs : FS) (reg : Registry)
    (dir base ext link : String) (i : Nat) :
    acceptsAt fs reg dir base ext link i = some true ↔
      assocFind fs (suggestedName dir base ext i) = none := by
  unfold acceptsAt
  cases h : assocFind fs (suggestedName dir base ext i) with
  | none => simp
  | some d =>
    by_cases hs : isSame reg link d
    · simp [hs]
    · simp [hs]

theorem acceptsAt_eq_none_iff (fs : FS) (reg : Registry)
    (dir base ext link : String) (i : Nat) :
    acceptsAt fs reg dir base ext link i = none ↔
      ∃ d, assocFind fs (suggestedName dir base ext i) = some d ∧
        isSame reg link d = false := by
  unfold acceptsAt
  cases h : assocFind fs (suggestedName dir base ext i) with
  | none => simp
  | some d =>
    by_cases hs : isSame reg link d
    · simp [hs]
    · simp [hs]

theorem assocFind_fsWrite (fs : FS) (p q : String) (b : Bytes) :
    assocFind (fsWrite fs p b) q = if p = q then some b else assocFind fs q := by
  rfl

/-- After the first resolution accepted the fresh candidate `p` at index
`i0` and its bytes were written there, the search accepts the same `p`
with `needsWrite = false`, provided the registry's hash for the link
matches the written bytes. -/
theorem searchFrom_after_write (fs : FS) (reg1 : Registry)
    (dir base ext link : String) (bytesOld : Bytes) (i0 : Nat) (p : String)
    (hlink : assocFind reg1 link = some (digest bytesOld))
    (hi0 : i0 < MAX_FILENAME_INDEX)
    (hp : p = suggestedName dir base ext i0)
    (hnotex : assocFind fs p = none)
    (hrej : ∀ j, j < i0 → acceptsAt fs reg1 dir base ext link j = none) :
    searchFrom (fsWrite fs p bytesOld) reg1 dir base ext link 0
      MAX_FILENAME_INDEX = some (p, false) := by
  subst hp
  apply searchFrom_some_intro (fsWrite fs (suggestedName dir base ext i0) bytesOld)
    reg1 dir base ext link MAX_FILENAME_INDEX 0 i0 false (Nat.zero_le _) (by omega)
  · unfold acceptsAt
    rw [assocFind_fsWrite, if_pos rfl]
    have hs : isSame reg1 link bytesOld = true := by
      unfold isSame
      rw [hlink]
      simp
    simp [hs]
  · intro j _ hj
    have hrj := hrej j hj
    rw [acceptsAt_eq_none_iff] at hrj
    rcases hrj with ⟨d, hd, hds⟩
    rw [acceptsAt_eq_none_iff]
    refine ⟨d, ?_, hds⟩
    rw [assocFind_fsWrite]
    have hne : suggestedName dir base ext i0 ≠ suggestedName dir base ext j := by
      intro he
      rw [← he] at hd
      rw [hnotex] at hd
      exact absurd hd (by simp)
    rw [if_neg hne]
    exact hd

/-! ## Claim theorems for the filename resolver -/

/-- C2.  For every directory, sanitized base name, link, and fetched
bytes, `chooseFileName` computes exactly the specification's bounded
candidate search: indices `0 ≤ i < MAX_FILENAME_INDEX` with candidate
path `dir/base.ext` at index 0 and `dir/base-i.ext` otherwise, accepting
the first nonexistent candidate with `needsWrite = true`, accepting an
existing candidate with `needsWrite = false` exactly when (after ensuring
the link's hash) the existing file's bytes compare equal via the Hash
Registry's `isSame`, and continuing otherwise. -/
theorem c2_resolver_refines_spec (fs : FS) (reg : Registry)
    (dir baseName link : String) (bytes : Bytes) :
    (chooseFileName fs reg dir baseName link bytes).2 =
      match resolveSpec fs reg dir baseName link bytes with
      | some r => Except.ok r
      | none => Except.error "Failed to generate file name for media file." :=
  chooseFileName_snd_eq fs reg dir baseName link bytes

/-- C6.  The resolver fails with the `NameGenerationError` message exactly
when no candidate index below `MAX_FILENAME_INDEX` is accepted — neither
as a nonexistent path nor as an existing path whose content matches the
link's recorded hash; whenever some candidate is accepted within the
bound, it returns normally. -/
theorem c6_error_iff_search_exhausted (fs : FS) (reg : Registry)
    (dir baseName link : String) (bytes : Bytes) :
    (chooseFileName fs reg dir baseName link bytes).2 =
        Except.error "Failed to generate file name for media file." ↔
      ∀ i, i < MAX_FILENAME_INDEX →
        acceptsAt fs (ensureHashGenerated reg link bytes) dir
          (resolvedBase baseName link (fileExtByContent bytes))
          (fileExtByContent bytes) link i = none := by
  rw [chooseFileName_snd_eq]
  simp only [resolveSpec]
  constructor
  · intro h i hi
    cases hS : searchFrom fs (ensureHashGenerated reg link bytes) dir
        (resolvedBase baseName link (fileExtByContent bytes))
        (fileExtByContent bytes) link 0 MAX_FILENAME_INDEX with
    | none =>
      exact (searchFrom_eq_none_iff fs (ensureHashGenerated reg link bytes) dir
        (resolvedBase baseName link (fileExtByContent bytes))
        (fileExtByContent bytes) link MAX_FILENAME_INDEX 0).mp hS i
        (Nat.zero_le _) (by omega)
    | some r =>
      rw [hS] at h
      simp at h
  · intro hall
    have hS : searchFrom fs (ensureHashGenerated reg link bytes) dir
        (resolvedBase baseName link (fileExtByContent bytes))
        (fileExtByContent bytes) link 0 MAX_FILENAME_INDEX = none :=
      (searchFrom_eq_none_iff fs (ensureHashGenerated reg link bytes) dir
        (resolvedBase baseName link (fileExtByContent bytes))
        (fileExtByContent bytes) link MAX_FILENAME_INDEX 0).mpr
        (fun i _ h2 => hall i (by omega))
    rw [hS]

/-- C6 witness: on an empty vault the very first candidate is accepted, so
the resolver does not fail. -/
theorem c6_witness :
    (chooseFileName [] [] "assets" "diagram" linkY pngA).2 ≠
      Except.error "Failed to generate file name for media file." := by
  intro h
  have h0 := (c6_error_iff_search_exhausted [] [] "assets" "diagram" linkY
    pngA).mp h 0 (by decide)
  exact absurd h0 (by decide)

/-- C10.  Every call to `chooseFileName` that returns normally has ensured
the link's hash before returning: the resulting registry is the initial
registry with `ensureHashGenerated` applied, and in particular it holds a
hash entry for the link. -/
theorem c10_registry_entry_after_success (fs : FS) (reg : Registry)
    (dir baseName link : String) (bytes : Bytes) (r : String × Bool)
    (h : (chooseFileName fs reg dir baseName link bytes).2 = Except.ok r) :
    (chooseFileName fs reg dir baseName link bytes).1 =
        ensureHashGenerated reg link bytes ∧
      (assocFind (chooseFileName fs reg dir baseName link bytes).1
        link).isSome = true := by
  have h1 := chooseFileName_fst_of_ok fs reg dir baseName link bytes r h
  refine ⟨h1, ?_⟩
  rw [h1]
  exact assocFind_ensure_isSome reg link bytes

/-- C10 witness: resolving on an empty vault succeeds and records a hash
entry for the link. -/
theorem c10_witness :
    (assocFind (chooseFileName [] [] "assets" "diagram" linkY pngA).1
      linkY).isSome = true :=
  (c10_registry_entry_after_success [] [] "assets" "diagram" linkY pngA
    ("assets/diagram.png", true) (by decide)).2

/-- C3.  For every link successfully resolved twice with identical bytes
both times and no interfering writes between the calls (the only change
to the vault is the resolver's own accepted write, and the registry holds
no stale foreign hash for the link), the second resolution returns the
same path as the first with `needsWrite = false` rather than creating a
`name-1` variant. -/
theorem c3_idempotent_resolution (fs : FS) (reg0 : Registry)
    (dir baseName link : String) (bytes : Bytes) (p : String) (w : Bool)
    (hreg : assocFind reg0 link = none ∨
      assocFind reg0 link = some (digest bytes))
    (h1 : (chooseFileName fs reg0 dir baseName link bytes).2 =
      Except.ok (p, w)) :
    (chooseFileName (if w then fsWrite fs p bytes else fs)
        (chooseFileName fs reg0 dir baseName link bytes).1
        dir baseName link bytes).2 = Except.ok (p, false) := by
  have hfst := chooseFileName_fst_of_ok fs reg0 dir baseName link bytes (p, w) h1
  have hlink : assocFind (ensureHashGenerated reg0 link bytes) link =
      some (digest bytes) := by
    rcases hreg with h | h
    · exact assocFind_ensure_of_none bytes h
    · exact assocFind_ensure_of_some bytes h
  have hens1 : ensureHashGenerated (ensureHashGenerated reg0 link bytes) link
      bytes = ensureHashGenerated reg0 link bytes :=
    ensure_idem reg0 link bytes bytes
  rw [chooseFileName_snd_eq] at h1
  rcases hS : resolveSpec fs reg0 dir baseName link bytes with _ | r
  · rw [hS] at h1
    exact absurd h1 (by simp)
  · rw [hS] at h1
    have hr : r = (p, w) := Except.ok.inj h1
    rw [hr] at hS
    simp only [resolveSpec] at hS
    rcases searchFrom_some_elim fs (ensureHashGenerated reg0 link bytes) dir
        (resolvedBase baseName link (fileExtByContent bytes))
        (fileExtByContent bytes) link MAX_FILENAME_INDEX 0 p w hS with
      ⟨i0, _, hi2, hp, hacc, hrej⟩
    rw [chooseFileName_snd_eq, hfst]
    suffices hgoal : resolveSpec (if w then fsWrite fs p bytes else fs)
        (ensureHashGenerated reg0 link bytes) dir baseName link bytes =
        some (p, false) by
      rw [hgoal]
    simp only [resolveSpec]
    rw [hens1]
    cases w with
    | false =>
      simp only [if_neg Bool.false_ne_true]
      exact hS
    | true =>
      simp only [ite_true]
      have hnotex : assocFind fs p = none := by
        rw [hp]
        exact (acceptsAt_eq_some_true_iff fs (ensureHashGenerated reg0 link bytes)
          dir (resolvedBase baseName link (fileExtByContent bytes))
          (fileExtByContent bytes) link i0).mp hacc
      exact searchFrom_after_write fs (ensureHashGenerated reg0 link bytes) dir
        (resolvedBase baseName link (fileExtByContent bytes))
        (fileExtByContent bytes) link bytes i0 p hlink (by omega) hp hnotex
        (fun j hj => hrej j (Nat.zero_le _) hj)

/-- C3 witness: first resolution of base name `diagram` with png bytes in
directory `assets` on an empty vault yields `assets/diagram.png` with
`needsWrite = true`; resolving the same link with identical bytes after
the write yields the same path with `needsWrite = false`. -/
theorem c3_witness :
    (chooseFileName (if true then fsWrite [] "assets/diagram.png" pngA else [])
        (chooseFileName [] [] "assets" "diagram" linkY pngA).1
        "assets" "diagram" linkY pngA).2 =
      Except.ok ("assets/diagram.png", false) :=
  c3_idempotent_resolution [] [] "assets" "diagram" linkY pngA
    "assets/diagram.png" true (Or.inl rfl) (by decide)

/-- C1 counterexample: the link `linkY` is resolved twice with the same
base name `diagram`; the first call fetched `pngA` and produced the file
`assets/diagram.png`, the second call fetched the different bytes `pngB`.
Contrary to the claim, the second resolution does not produce the
distinct path `assets/diagram-1.png`: it selects the existing
`assets/diagram.png` with `needsWrite = false`, because the first-write-wins
registry hash still matches the existing file's bytes. -/
theorem c1_counterexample :
    (chooseFileName (fsWrite [] "assets/diagram.png" pngA)
        (chooseFileName [] [] "assets" "diagram" linkY pngA).1
        "assets" "diagram" linkY pngB).2 =
      Except.ok ("assets/diagram.png", false) ∧
      ("assets/diagram.png" : String) ≠ "assets/diagram-1.png" := by
  constructor
  · decide
  · decide

/-- C1 (amended).  For every link resolved twice with the same base name,
where the second call's fetched bytes differ from (or equal) the first
call's bytes but sniff to the same extension, and the first call accepted
a fresh path `p` whose bytes were then written: the second resolution
selects the existing path `p` with `needsWrite = false` — the existing
file is never overwritten, and no distinct `name-1` path is produced,
because the first-write-wins registry hash still matches the existing
file's content. -/
theorem c1_second_resolution_reuses_existing (fs : FS) (reg0 : Registry)
    (dir baseName link : String) (bytes1 bytes2 : Bytes) (p : String)
    (hreg : assocFind reg0 link = none)
    (hext : fileExtByContent bytes2 = fileExtByContent bytes1)
    (h1 : (chooseFileName fs reg0 dir baseName link bytes1).2 =
      Except.ok (p, true)) :
    (chooseFileName (fsWrite fs p bytes1)
        (chooseFileName fs reg0 dir baseName link bytes1).1
        dir baseName link bytes2).2 = Except.ok (p, false) := by
  have hfst := chooseFileName_fst_of_ok fs reg0 dir baseName link bytes1
    (p, true) h1
  have hlink : assocFind (ensureHashGenerated reg0 link bytes1) link =
      some (digest bytes1) := assocFind_ensure_of_none bytes1 hreg
  have hens2 : ensureHashGenerated (ensureHashGenerated reg0 link bytes1) link
      bytes2 = ensureHashGenerated reg0 link bytes1 :=
    ensure_of_isSome bytes2 (by rw [hlink]; rfl)
  rw [chooseFileName_snd_eq] at h1
  rcases hS : resolveSpec fs reg0 dir baseName link bytes1 with _ | r
  · rw [hS] at h1
    exact absurd h1 (by simp)
  · rw [hS] at h1
    have hr : r = (p, true) := Except.ok.inj h1
    rw [hr] at hS
    simp only [resolveSpec] at hS
    rcases searchFrom_some_elim fs (ensureHashGenerated reg0 link bytes1) dir
        (resolvedBase baseName link (fileExtByContent bytes1))
        (fileExtByContent bytes1) link MAX_FILENAME_INDEX 0 p true hS with
      ⟨i0, _, hi2, hp, hacc, hrej⟩
    rw [chooseFileName_snd_eq, hfst]
    suffices hgoal : resolveSpec (fsWrite fs p bytes1)
        (ensureHashGenerated reg0 link bytes1) dir baseName link bytes2 =
        some (p, false) by
      rw [hgoal]
    simp only [resolveSpec]
    rw [hens2, hext]
    have hnotex : assocFind fs p = none := by
      rw [hp]
      exact (acceptsAt_eq_some_true_iff fs (ensureHashGenerated reg0 link bytes1)
        dir (resolvedBase baseName link (fileExtByContent bytes1))
        (fileExtByContent bytes1) link i0).mp hacc
    exact searchFrom_after_write fs (ensureHashGenerated reg0 link bytes1) dir
      (resolvedBase baseName link (fileExtByContent bytes1))
      (fileExtByContent bytes1) link bytes1 i0 p hlink (by omega) hp hnotex
      (fun j hj => hrej j (Nat.zero_le _) hj)

/-- C1 (amended) witness: concrete run of the amended statement with
`pngA` then `pngB`. -/
theorem c1_amended_witness :
    (chooseFileName (fsWrite [] "assets/diagram.png" pngA)
        (chooseFileName [] [] "assets" "diagram" linkY pngA).1
        "assets" "diagram" linkY pngB).2 =
      Except.ok ("assets/diagram.png", false) :=
  c1_second_resolution_reuses_existing [] [] "assets" "diagram" linkY pngA
    pngB "assets/diagram.png" rfl (by decide) (by decide)

/-! ## Trace counting lemmas -/

theorem fetchCount_nil : fetchCount [] = 0 := rfl

theorem resolveCount_nil : resolveCount [] = 0 := rfl

theorem fetchCount_cons_fetch (l : String) (tr : List Ev) :
    fetchCount (Ev.fetchEv l :: tr) = fetchCount tr + 1 := by
  simp [fetchCount, isFetchEv]

theorem fetchCount_cons_resolve (n : Nat) (b : Bytes) (tr : List Ev) :
    fetchCount (Ev.resolveEv n b :: tr) = fetchCount tr := by
  simp [fetchCount, isFetchEv]

theorem fetchCount_cons_write (n : Nat) (p : String) (b : Bytes) (tr : List Ev) :
    fetchCount (Ev.writeEv n p b :: tr) = fetchCount tr := by
  simp [fetchCount, isFetchEv]

theorem resolveCount_cons_fetch (l : String) (tr : List Ev) :
    resolveCount (Ev.fetchEv l :: tr) = resolveCount tr := by
  simp [resolveCount, isResolveEv]

theorem resolveCount_cons_resolve (n : Nat) (b : Bytes) (tr : List Ev) :
    resolveCount (Ev.resolveEv n b :: tr) = resolveCount tr + 1 := by
  simp [resolveCount, isResolveEv]

theorem resolveCount_cons_write (n : Nat) (p : String) (b : Bytes) (tr : List Ev) :
    resolveCount (Ev.writeEv n p b :: tr) = resolveCount tr := by
  simp [resolveCount, isResolveEv]

/-! ## Behaviour of the retry loop -/

theorem attemptLoop_all_already (env : Env) (m a : String) (bytes : Bytes) :
    ∀ fuel attempt,
      (∀ n, attempt ≤ n → n < attempt + fuel →
        attemptAlreadyExists env bytes n) →
      (attemptLoop env m a bytes attempt fuel).1 = m ∧
        resolveCount (attemptLoop env m a bytes attempt fuel).2 = fuel := by
  intro fuel
  induction fuel with
  | zero => intro attempt _; exact ⟨rfl, rfl⟩
  | succ k ih =>
    intro attempt hall
    have h0 := hall attempt (Nat.le_refl _) (by omega)
    have hrec := ih (attempt + 1) (fun n h1 h2 => hall n (by omega) (by omega))
    rw [attemptLoop]
    rcases h0 with hres | ⟨fn, hres, hwr⟩
    · simp [hres, resolveCount_cons_resolve, hrec.1, hrec.2]
    · simp [hres, hwr, resolveCount_cons_resolve, resolveCount_cons_write,
        hrec.1, hrec.2]

theorem attemptLoop_stops_on_other (env : Env) (m a : String) (bytes : Bytes) :
    ∀ fuel attempt j msg, j < fuel →
      (∀ n, attempt ≤ n → n < attempt + j →
        attemptAlreadyExists env bytes n) →
      attemptErrorsWith env bytes (attempt + j) msg → msg ≠ fileExistsMsg →
      (attemptLoop env m a bytes attempt fuel).1 = m ∧
        resolveCount (attemptLoop env m a bytes attempt fuel).2 = j + 1 := by
  intro fuel
  induction fuel with
  | zero => intro _ j _ hj; omega
  | succ k ih =>
    intro attempt j msg hj hall herr hne
    cases j with
    | zero =>
      simp only [Nat.add_zero] at herr
      rw [attemptLoop]
      rcases herr with hres | ⟨fn, hres, hwr⟩
      · simp [hres, hne, resolveCount_cons_resolve, resolveCount_nil]
      · simp [hres, hwr, hne, resolveCount_cons_resolve,
          resolveCount_cons_write, resolveCount_nil]
    | succ j1 =>
      have h0 := hall attempt (Nat.le_refl _) (by omega)
      have herr1 : attemptErrorsWith env bytes ((attempt + 1) + j1) msg := by
        have he : (attempt + 1) + j1 = attempt + (j1 + 1) := by omega
        rw [he]
        exact herr
      have hrec := ih (attempt + 1) j1 msg (by omega)
        (fun n h1 h2 => hall n (by omega) (by omega)) herr1 hne
      rw [attemptLoop]
      rcases h0 with hres | ⟨fn, hres, hwr⟩
      · simp [hres, resolveCount_cons_resolve, hrec.1, hrec.2]
      · simp [hres, hwr, resolveCount_cons_resolve, resolveCount_cons_write,
          hrec.1, hrec.2]

theorem attemptLoop_all_fail (env : Env) (m a : String) (bytes : Bytes) :
    ∀ fuel attempt,
      (∀ n, attempt ≤ n → n < attempt + fuel → attemptFails env bytes n) →
      (attemptLoop env m a bytes attempt fuel).1 = m := by
  intro fuel
  induction fuel with
  | zero => intro attempt _; rfl
  | succ k ih =>
    intro attempt hall
    have h0 := hall attempt (Nat.le_refl _) (by omega)
    have hrec := ih (attempt + 1) (fun n h1 h2 => hall n (by omega) (by omega))
    rw [attemptLoop]
    rcases h0 with ⟨msg, hres⟩ | ⟨fn, msg, hres, hwr⟩
    · by_cases hmsg : msg = fileExistsMsg
      · simp [hres, hmsg, hrec]
      · simp [hres, hmsg]
    · by_cases hmsg : msg = fileExistsMsg
      · simp [hres, hwr, hmsg, hrec]
      · simp [hres, hwr, hmsg]

theorem attemptLoop_no_fetch (env : Env) (m a : String) (bytes : Bytes) :
    ∀ fuel attempt,
      fetchCount (attemptLoop env m a bytes attempt fuel).2 = 0 ∧
        ∀ n b, Ev.resolveEv n b ∈ (attemptLoop env m a bytes attempt fuel).2 →
          b = bytes := by
  intro fuel
  induction fuel with
  | zero =>
    intro attempt
    exact ⟨rfl, fun n b hb => absurd hb (by simp [attemptLoop])⟩
  | succ k ih =>
    intro attempt
    have hrec := ih (attempt + 1)
    cases hres : env.resolve attempt bytes with
    | error msg =>
      by_cases hmsg : msg = fileExistsMsg
      · have hstep : attemptLoop env m a bytes attempt (k + 1) =
            ((attemptLoop env m a bytes (attempt + 1) k).1,
              Ev.resolveEv attempt bytes ::
                (attemptLoop env m a bytes (attempt + 1) k).2) := by
          rw [attemptLoop]
          simp [hres, hmsg]
        rw [hstep]
        refine ⟨by rw [fetchCount_cons_resolve]; exact hrec.1, ?_⟩
        intro n b hb
        rcases List.mem_cons.mp hb with he | hm
        · exact (Ev.resolveEv.inj he).2
        · exact hrec.2 n b hm
      · have hstep : attemptLoop env m a bytes attempt (k + 1) =
            (m, [Ev.resolveEv attempt bytes]) := by
          rw [attemptLoop]
          simp [hres, hmsg]
        rw [hstep]
        refine ⟨rfl, ?_⟩
        intro n b hb
        rcases List.mem_cons.mp hb with he | hm
        · exact (Ev.resolveEv.inj he).2
        · exact absurd hm (by simp)
    | ok r =>
      cases r with
      | mk fn nw =>
        cases nw with
        | false =>
          have hstep : attemptLoop env m a bytes attempt (k + 1) =
              (imageTag a fn, [Ev.resolveEv attempt bytes]) := by
            rw [attemptLoop]
            simp [hres]
          rw [hstep]
          refine ⟨rfl, ?_⟩
          intro n b hb
          rcases List.mem_cons.mp hb with he | hm
          · exact (Ev.resolveEv.inj he).2
          · exact absurd hm (by simp)
        | true =>
          cases hwr : env.write attempt fn bytes with
          | error msg =>
            by_cases hmsg : msg = fileExistsMsg
            · have hstep : attemptLoop env m a bytes attempt (k + 1) =
                  ((attemptLoop env m a bytes (attempt + 1) k).1,
                    Ev.resolveEv attempt bytes :: Ev.writeEv attempt fn bytes ::
                      (attemptLoop env m a bytes (attempt + 1) k).2) := by
                rw [attemptLoop]
                simp [hres, hwr, hmsg]
              rw [hstep]
              refine ⟨?_, ?_⟩
              · rw [fetchCount_cons_resolve, fetchCount_cons_write]
                exact hrec.1
              · intro n b hb
                rcases List.mem_cons.mp hb with he | hm
                · exact (Ev.resolveEv.inj he).2
                · rcases List.mem_cons.mp hm with he2 | hm2
                  · exact absurd he2 (by simp)
                  · exact hrec.2 n b hm2
            · have hstep : attemptLoop env m a bytes attempt (k + 1) =
                  (m, [Ev.resolveEv attempt bytes,
                    Ev.writeEv attempt fn bytes]) := by
                rw [attemptLoop]
                simp [hres, hwr, hmsg]
              rw [hstep]
              refine ⟨rfl, ?_⟩
              intro n b hb
              rcases List.mem_cons.mp hb with he | hm
              · exact (Ev.resolveEv.inj he).2
              · rcases List.mem_cons.mp hm with he2 | hm2
                · exact absurd he2 (by simp)
                · exact absurd hm2 (by simp)
          | ok u =>
            have hstep : attemptLoop env m a bytes attempt (k + 1) =
                (imageTag a fn, [Ev.resolveEv attempt bytes,
                  Ev.writeEv attempt fn bytes]) := by
              rw [attemptLoop]
              simp [hres, hwr]
            rw [hstep]
            refine ⟨rfl, ?_⟩
            intro n b hb
            rcases List.mem_cons.mp hb with he | hm
            · exact (Ev.resolveEv.inj he).2
            · rcases List.mem_cons.mp hm with he2 | hm2
              · exact absurd he2 (by simp)
              · exact absurd hm2 (by simp)

/-! ## Claim theorems for the per-match processor -/

/-- C4.  When resolution of a match keeps failing with the "already
exists" class of conflict, the per-match processor retries the
resolution for that same match up to `FILENAME_ATTEMPTS = 5` times before
giving up and returning the original matched text; and an error of any
other class is not retried at this level: the processor stops after it
(making exactly the conflicted attempts plus the failing one) and
returns the original matched text. -/
theorem c4_bounded_retry_on_conflict :
    (∀ (env : Env) (m a l : String) (bytes : Bytes) (isUrlF : String → Bool),
      isUrlF l = true → env.fetch = Except.ok bytes →
      (∀ n, n < FILENAME_ATTEMPTS → attemptAlreadyExists env bytes n) →
      (processImageTag isUrlF env m a l).1 = m ∧
        resolveCount (processImageTag isUrlF env m a l).2 =
          FILENAME_ATTEMPTS) ∧
    (∀ (env : Env) (m a l : String) (bytes : Bytes) (isUrlF : String → Bool)
        (k : Nat) (msg : String),
      isUrlF l = true → env.fetch = Except.ok bytes →
      k < FILENAME_ATTEMPTS →
      (∀ n, n < k → attemptAlreadyExists env bytes n) →
      attemptErrorsWith env bytes k msg → msg ≠ fileExistsMsg →
      (processImageTag isUrlF env m a l).1 = m ∧
        resolveCount (processImageTag isUrlF env m a l).2 = k + 1) := by
  constructor
  · intro env m a l bytes isUrlF hu hf hall
    have hloop := attemptLoop_all_already env m a bytes FILENAME_ATTEMPTS 0
      (fun n h1 h2 => hall n (by omega))
    simp only [processImageTag, hu, hf, ite_true]
    exact ⟨hloop.1, by rw [resolveCount_cons_fetch]; exact hloop.2⟩
  · intro env m a l bytes isUrlF k msg hu hf hk hall herr hne
    have hloop := attemptLoop_stops_on_other env m a bytes FILENAME_ATTEMPTS 0
      k msg hk (fun n h1 h2 => hall n (by omega)) (by simpa using herr) hne
    simp only [processImageTag, hu, hf, ite_true]
    exact ⟨hloop.1, by rw [resolveCount_cons_fetch]; exact hloop.2⟩

/-- C4 witness: with every attempt conflicting, the processor makes all 5
attempts and returns the matched text; with a non-conflict error at
attempt 1 after a conflict at attempt 0, it stops after 2 attempts and
returns the matched text. -/
theorem c4_witness :
    ((processImageTag (fun _ => true) envAlready "m" "a" linkY).1 = "m" ∧
      resolveCount (processImageTag (fun _ => true) envAlready "m" "a"
        linkY).2 = FILENAME_ATTEMPTS) ∧
    ((processImageTag (fun _ => true) envOther "m" "a" linkY).1 = "m" ∧
      resolveCount (processImageTag (fun _ => true) envOther "m" "a"
        linkY).2 = 2) :=
  ⟨c4_bounded_retry_on_conflict.1 envAlready "m" "a" linkY pngA
      (fun _ => true) rfl rfl (fun n _ => Or.inl rfl),
    c4_bounded_retry_on_conflict.2 envOther "m" "a" linkY pngA
      (fun _ => true) 1 "boom" rfl rfl (by decide)
      (fun n hn => by
        have hn0 : n = 0 := by omega
        rw [hn0]
        exact Or.inl rfl)
      (Or.inl rfl) (by decide)⟩

/-- C5.  If the fetch fails, or every one of the bounded resolution/write
attempts fails, the match's original text is returned unchanged — the
per-match processor is a total function, so the failure never propagates
out of the match handler and the whole-document rewrite is never
aborted. -/
theorem c5_failure_preserves_match (isUrlF : String → Bool) (env : Env)
    (m a l : String)
    (h : (∃ e, env.fetch = Except.error e) ∨
      (∃ bytes, env.fetch = Except.ok bytes ∧
        ∀ n, n < FILENAME_ATTEMPTS → attemptFails env bytes n)) :
    (processImageTag isUrlF env m a l).1 = m := by
  cases hu : isUrlF l with
  | false => simp [processImageTag, hu]
  | true =>
    rcases h with ⟨e, hf⟩ | ⟨bytes, hf, hall⟩
    · simp [processImageTag, hu, hf]
    · simp only [processImageTag, hu, hf, ite_true]
      exact attemptLoop_all_fail env m a bytes FILENAME_ATTEMPTS 0
        (fun n h1 h2 => hall n (by omega))

/-- C5 witness: a failing fetch leaves the matched text unchanged. -/
theorem c5_witness :
    (processImageTag (fun _ => true) envFetchFail "![a](u)" "a" "u").1 =
      "![a](u)" :=
  c5_failure_preserves_match (fun _ => true) envFetchFail "![a](u)" "a" "u"
    (Or.inl ⟨"network error", rfl⟩)

/-- C7.  A matched reference whose link is not a well-formed external URL
is returned verbatim, and the Fetcher is never invoked for it: the
processor's output is exactly the matched text with an empty effect
trace. -/
theorem c7_non_url_passthrough (isUrlF : String → Bool) (env : Env)
    (m a l : String) (h : isUrlF l = false) :
    processImageTag isUrlF env m a l = (m, []) ∧
      fetchCount (processImageTag isUrlF env m a l).2 = 0 := by
  constructor
  · simp [processImageTag, h]
  · simp [processImageTag, h, fetchCount_nil]

/-- C7 witness: a local (non-URL) link passes through unchanged without
any fetch. -/
theorem c7_witness :
    processImageTag (fun _ => false) envResolveOk "![a](local.png)" "a"
        "local.png" = ("![a](local.png)", []) :=
  (c7_non_url_passthrough (fun _ => false) envResolveOk "![a](local.png)"
    "a" "local.png" rfl).1

/-- C8.  In every invocation of the per-match processor, the remote bytes
are fetched at most once; every resolution attempt in the trace uses
exactly the bytes of that single successful fetch, and the fetch is the
first event of the trace (so it happens before the first
filename-resolution attempt, and the bounded retries never trigger a
second fetch). -/
theorem c8_fetch_at_most_once (isUrlF : String → Bool) (env : Env)
    (m a l : String) :
    fetchCount (processImageTag isUrlF env m a l).2 ≤ 1 ∧
      ∀ n b, Ev.resolveEv n b ∈ (processImageTag isUrlF env m a l).2 →
        env.fetch = Except.ok b ∧
          ((processImageTag isUrlF env m a l).2).head? =
            some (Ev.fetchEv l) := by
  cases hu : isUrlF l with
  | false =>
    constructor
    · simp [processImageTag, hu, fetchCount_nil]
    · intro n b hb
      rw [processImageTag] at hb
      simp [hu] at hb
  | true =>
    cases hf : env.fetch with
    | error e =>
      constructor
      · simp [processImageTag, hu, hf, fetchCount_cons_fetch, fetchCount_nil]
      · intro n b hb
        rw [processImageTag] at hb
        simp [hu, hf] at hb
    | ok bytes =>
      have hloop := attemptLoop_no_fetch env m a bytes FILENAME_ATTEMPTS 0
      constructor
      · simp only [processImageTag, hu, hf, ite_true]
        rw [fetchCount_cons_fetch, hloop.1]
      · intro n b hb
        simp only [processImageTag, hu, hf, ite_true] at hb ⊢
        rcases List.mem_cons.mp hb with he | hm
        · exact absurd he (by simp)
        · exact ⟨by rw [hloop.2 n b hm], rfl⟩

/-- C8 witness: in a successful run the fetch heads the trace and the
resolution attempt received the fetched bytes. -/
theorem c8_witness :
    envResolveOk.fetch = Except.ok pngA ∧
      ((processImageTag (fun _ => true) envResolveOk "m" "a" linkY).2).head? =
        some (Ev.fetchEv linkY) :=
  (c8_fetch_at_most_once (fun _ => true) envResolveOk "m" "a" linkY).2 0 pngA
    (by decide)

/-! ## Claim theorems for the settings merge -/

theorem assocFind_append {α : Type} (xs ys : List (String × α)) (k : String) :
    assocFind (xs ++ ys) k =
      match assocFind xs k with
      | some v => some v
      | none => assocFind ys k := by
  induction xs with
  | nil => rfl
  | cons p rest ih =>
    cases p with
    | mk q v =>
      by_cases hq : q = k
      · simp [assocFind, hq]
      · simp [assocFind, hq, ih]

/-- C9 counterexample: a key unknown to the configuration schema is not
ignored by `loadSettings` — `Object.assign` copies it into the resulting
configuration object. -/
theorem c9_counterexample :
    assocFind (loadSettings [("bogus", SettingVal.n 7)]) "bogus" =
        some (SettingVal.n 7) ∧
      assocFind DEFAULT_CONF "bogus" = none := by
  constructor
  · decide
  · decide

/-- C9 (amended).  For every stored settings object, each documented field
(a key of `DEFAULT_CONF`) takes the stored value when the key is present
and the documented default when it is missing; keys unknown to the schema
do not affect any documented field, but they are retained in (not
stripped from) the resulting configuration object. -/
theorem c9_settings_merge (stored : SettingsData) (k : String) :
    (∀ v, assocFind DEFAULT_CONF k = some v →
      assocFind (loadSettings stored) k =
        some ((assocFind stored k).getD v)) ∧
    (assocFind DEFAULT_CONF k = none →
      assocFind (loadSettings stored) k = assocFind stored k) := by
  have hA := assocFind_append stored DEFAULT_CONF k
  constructor
  · intro v hv
    rw [loadSettings, objAssign, hA, hv]
    cases hs : assocFind stored k with
    | none => simp
    | some w => simp
  · intro hv
    rw [loadSettings, objAssign, hA, hv]
    cases hs : assocFind stored k with
    | none => simp
    | some w => simp

/-- C9 (amended) witness: a documented key present in the stored object
takes the stored value. -/
theorem c9_witness :
    assocFind (loadSettings storedSample) "realTimeUpdate" =
      some ((assocFind storedSample "realTimeUpdate").getD
        (SettingVal.b false)) :=
  (c9_settings_merge storedSample "realTimeUpdate").1 (SettingVal.b false)
    (by decide)

end ImagesStore
